import Mathlib

/-!
Verification of the plugin type resolver (`aiida/plugins/loader.py`), the
self-describing object wrapper (`aiida/orm/nodes/data/msonable.py`) and the
compute-resource setup behaviour of this repository, as a shallow embedding.

Python strings are embedded as `List Char`; Python values that flow through
the JSON codec pipeline are embedded as the inductive type `PyVal`; fallible
Python code is embedded as `Except`-valued functions.
-/

set_option maxRecDepth 4000

/-- Embedding of a Python `str` as a list of characters. -/
abbrev PyStr := List Char

/-- Embedding of a Python (IEEE-754 double) `float`: the three non-JSON-safe
special values are distinguished constructors, every finite double is a
rational number and is carried by `finite`.  The codec pipeline under study
never inspects finite values, only the three specials. -/
inductive PyFloat where
  | finite (q : Rat)
  | inf
  | ninf
  | nan

/-- Embedding of the Python values that can occur in the serialized mapping of
an MSONable object and in the stored attributes of an `MsonableData` node.

`str`, `int`, `bool`, `pynone` (Python `None`), `float`, `list` and `dict`
are the JSON-level values; `datetime` and `uuid` carry the `__str__` form the
code stores for them; `ndarray` carries the dtype name and the nested-list
(`tolist()`) forms of the real and imaginary parts (for a non-complex dtype
the code only reads the real part); `npgeneric` carries the Python scalar its
`item()` method returns; `objectid` carries the string form of a BSON object
id; `obj` is any other Python object, described by its defining module, its
qualified name, whether it is callable and whether it is an instance of the
`MSONable` base class. -/
inductive PyVal where
  | str (s : String)
  | int (n : Int)
  | bool (b : Bool)
  | pynone
  | float (f : PyFloat)
  | datetime (s : String)
  | uuid (s : String)
  | ndarray (dtype : String) (re im : PyVal)
  | npgeneric (item : PyVal)
  | objectid (oid : String)
  | obj (modName qualName : String) (isCallable isMSON : Bool)
  | list (xs : List PyVal)
  | dict (kvs : List (String × PyVal))

/-- Modelled from the spec: monty's `_serialize_callable` (third-party), which
the spec describes as producing "a reference descriptor capturing its fully
qualified module and name" for an invocable value. -/
def serialize_callable (modName qualName : String) : PyVal :=
  .dict [("@module", .str modName), ("@callable", .str qualName)]

namespace JSONPreprocessor

/-- `JSONPreprocessor.process_nan` (msonable.py lines 102-112): replace the
IEEE-754 positive infinity by the string `Infinity`, negative infinity by
`-Infinity` and NaN (the value unequal to itself) by `NaN`; every other value
is returned unchanged (no other embedded value compares equal to an infinite
float, and only NaN is unequal to itself). -/
def process_nan : PyVal → PyVal
  | .float .inf => .str "Infinity"
  | .float .ninf => .str "-Infinity"
  | .float .nan => .str "NaN"
  | v => v

/-- `JSONPreprocessor.process_additional` (msonable.py lines 114-150): tag
datetimes, UUIDs, numpy arrays and BSON object ids as `@module`/`@class`
dictionaries, unwrap numpy scalars via `item()`, serialize callables that are
not themselves `MSONable`, and return every other value unchanged.  The
tagged dictionaries produced by the earlier branches are not callable, so the
final `callable` test only fires for the `obj` leaf. -/
def process_additional : PyVal → PyVal
  | .datetime s => .dict [("@module", .str "datetime"), ("@class", .str "datetime"), ("string", .str s)]
  | .uuid s => .dict [("@module", .str "uuid"), ("@class", .str "UUID"), ("string", .str s)]
  | .ndarray dtype re im =>
    if dtype.startsWith "complex" then
      .dict [("@module", .str "numpy"), ("@class", .str "array"), ("dtype", .str dtype),
             ("data", .list [re, im])]
    else
      .dict [("@module", .str "numpy"), ("@class", .str "array"), ("dtype", .str dtype),
             ("data", re)]
  | .npgeneric item => item
  | .objectid oid => .dict [("@module", .str "bson.objectid"), ("@class", .str "ObjectId"), ("oid", .str oid)]
  | .obj modName qualName isCallable isMSON =>
    if isCallable && !isMSON then serialize_callable modName qualName
    else .obj modName qualName isCallable isMSON
  | v => v

mutual

/-- `JSONPreprocessor.process` (msonable.py lines 152-164): recurse through
lists and dictionary values, and apply `process_additional` then
`process_nan` (the order of `self.process_funcs`) to every other value. -/
def process : PyVal → PyVal
  | .list xs => .list (processList xs)
  | .dict kvs => .dict (processDict kvs)
  | v => process_nan (process_additional v)

/-- Elementwise recursion of `JSONPreprocessor.process` through a list. -/
def processList : List PyVal → List PyVal
  | [] => []
  | v :: vs => process v :: processList vs

/-- Valuewise recursion of `JSONPreprocessor.process` through a dictionary. -/
def processDict : List (String × PyVal) → List (String × PyVal)
  | [] => []
  | (k, v) :: kvs => (k, process v) :: processDict kvs

end

end JSONPreprocessor

namespace MontyDecoder

mutual

/-- Modelled from the spec: monty's `MontyDecoder.process_decoded`
(third-party), which the spec describes as "reversing every tagged structure
above back to its native type" and which returns every non-container,
non-tagged value unchanged.  Inside `JSONPostprocessor.process` it is only
ever applied to non-container leaves (the surrounding `process` recurses into
lists and dictionaries before applying its processor functions), for which it
is the identity. -/
def process_decoded : PyVal → PyVal
  | .list xs => .list (decodeList xs)
  | .dict kvs =>
    match List.lookup "@module" kvs, List.lookup "@class" kvs with
    | some (.str "datetime"), some (.str "datetime") =>
      match List.lookup "string" kvs with
      | some (.str s) => .datetime s
      | _ => .dict (decodeDict kvs)
    | some (.str "uuid"), some (.str "UUID") =>
      match List.lookup "string" kvs with
      | some (.str s) => .uuid s
      | _ => .dict (decodeDict kvs)
    | some (.str "numpy"), some (.str "array") =>
      match List.lookup "dtype" kvs, List.lookup "data" kvs with
      | some (.str dtype), some (.list [re, im]) =>
        if dtype.startsWith "complex" then .ndarray dtype re im
        else .dict (decodeDict kvs)
      | some (.str dtype), some d =>
        if dtype.startsWith "complex" then .dict (decodeDict kvs)
        else .ndarray dtype d .pynone
      | _, _ => .dict (decodeDict kvs)
    | some (.str "bson.objectid"), some (.str "ObjectId") =>
      match List.lookup "oid" kvs with
      | some (.str oid) => .objectid oid
      | _ => .dict (decodeDict kvs)
    | _, _ => .dict (decodeDict kvs)
  | v => v

/-- Elementwise recursion of `process_decoded` through a list. -/
def decodeList : List PyVal → List PyVal
  | [] => []
  | v :: vs => process_decoded v :: decodeList vs

/-- Valuewise recursion of `process_decoded` through a dictionary. -/
def decodeDict : List (String × PyVal) → List (String × PyVal)
  | [] => []
  | (k, v) :: kvs => (k, process_decoded v) :: decodeDict kvs

end

end MontyDecoder

namespace JSONPostprocessor

/-- `JSONPostprocessor.process_nan` (msonable.py lines 174-184): replace the
string `Infinity` by positive infinity, `-Infinity` by negative infinity and
`NaN` by NaN; every other value is unchanged (no embedded non-string value
compares equal to these strings). -/
def process_nan : PyVal → PyVal
  | .str s =>
    if s = "Infinity" then .float .inf
    else if s = "-Infinity" then .float .ninf
    else if s = "NaN" then .float .nan
    else .str s
  | v => v

/-- `JSONPostprocessor.process_additional` (msonable.py lines 186-189):
delegate to monty's `MontyDecoder().process_decoded`. -/
def process_additional : PyVal → PyVal :=
  MontyDecoder.process_decoded

mutual

/-- `JSONPostprocessor.process` (msonable.py lines 191-203): recurse through
lists and dictionary values, and apply `process_nan` then
`process_additional` (the order of `self.process_funcs`) to every other
value. -/
def process : PyVal → PyVal
  | .list xs => .list (processList xs)
  | .dict kvs => .dict (processDict kvs)
  | v => process_additional (process_nan v)

/-- Elementwise recursion of `JSONPostprocessor.process` through a list. -/
def processList : List PyVal → List PyVal
  | [] => []
  | v :: vs => process v :: processList vs

/-- Valuewise recursion of `JSONPostprocessor.process` through a dictionary. -/
def processDict : List (String × PyVal) → List (String × PyVal)
  | [] => []
  | (k, v) :: kvs => (k, process v) :: processDict kvs

end

end JSONPostprocessor

/-- Python `s.startswith(p)` on `str`: `p` is a leading-segment of `s`. -/
def pyStartswith : PyStr → PyStr → Bool
  | _, [] => true
  | [], _ :: _ => false
  | c :: s, d :: p => c == d && pyStartswith s p

/-- Python `s.endswith(t)` on `str`: `t` is a trailing segment of `s`. -/
def pyEndswith (s t : PyStr) : Bool :=
  pyStartswith s.reverse t.reverse

/-- The greatest index `j ≤ i` at which `sep` occurs in `s`, scanning downward
from `i`; `none` when there is no such occurrence. -/
def rfindFrom (s sep : PyStr) : Nat → Option Nat
  | 0 => if pyStartswith s sep then some 0 else none
  | i + 1 => if pyStartswith (s.drop (i + 1)) sep then some (i + 1) else rfindFrom s sep i

/-- The index of the rightmost occurrence of `sep` in `s` (an occurrence can
start no later than `s.length - sep.length`), or `none`. -/
def rfindSub (s sep : PyStr) : Option Nat :=
  rfindFrom s sep (s.length - sep.length)

/-- Python `s.rsplit(sep, maxsplit)` for a non-empty separator: split `s` at
the rightmost occurrences of `sep`, at most `maxsplit` times, scanning from
the right (`'aaa'.rsplit('aa')` is `['a', '']`, unlike `split`). -/
def pyRsplitN (s sep : PyStr) : Nat → List PyStr
  | 0 => [s]
  | n + 1 =>
    match rfindSub s sep with
    | none => [s]
    | some i => pyRsplitN (s.take i) sep n ++ [s.drop (i + sep.length)]

/-- Python `s.rsplit(sep)` without a maxsplit, for a non-empty separator:
every occurrence is split (a bound of `s.length` splits suffices, since each
occurrence of a non-empty separator consumes at least one character).  For an
empty separator Python raises `ValueError`; the only caller in this
development guards that case before calling (see `strip_prefix`). -/
def pyRsplitAll (s sep : PyStr) : List PyStr :=
  pyRsplitN s sep s.length

/-- `strip_prefix` (loader.py lines 134-146): `if string.startswith(prefix):
return string.rsplit(prefix)[1]` else return the string unchanged.  `none`
embeds the `ValueError` that `rsplit` raises on an empty separator (reached
exactly when the prefix is empty, since `startswith` then holds); the
`.getD 1 []` is the `[1]` indexing, whose `IndexError` case is unreachable
because a list produced by splitting at a present separator has at least two
entries. -/
def strip_prefix (s pfx : PyStr) : Option PyStr :=
  if pyStartswith s pfx then
    if pfx = [] then none
    else some ((pyRsplitAll s pfx).getD 1 [])
  else some s

/-- One multiply-xor step of the CPython 2.7 string hash (`string_hash` in
stringobject.c), on a 64-bit build: `x = (1000003 * x) ^ ord(c)`, with the
C `long` arithmetic wrapping modulo `2 ^ 64`. -/
def py2_hash_step (x : Nat) (c : Char) : Nat :=
  ((1000003 * x) ^^^ c.toNat) % (2 ^ 64)

/-- The CPython 2.7 string hash on a 64-bit build, as an unsigned 64-bit
value: `x = ord(s[0]) << 7`, then the multiply-xor step over every character,
then `x ^= len(s)`, and the value `-1` (here `2 ^ 64 - 1`) is replaced by
`-2`.  The empty string hashes to `0`.  CPython 2.7 does not randomize string
hashes unless explicitly asked to (`-R`/`PYTHONHASHSEED`), so this value, and
the dictionary iteration order derived from it below, is what every default
CPython 2.7 run uses. -/
def py2_string_hash : PyStr → Nat
  | [] => 0
  | c :: s =>
    let x := (c :: s).foldl py2_hash_step ((c.toNat <<< 7) % (2 ^ 64))
    let h := (x ^^^ (c :: s).length) % (2 ^ 64)
    if h = 2 ^ 64 - 1 then 2 ^ 64 - 2 else h

/-- The open-addressing probe loop of CPython 2.7's `lookdict` for an 8-slot
table: starting from a running index `i` and `perturb`, repeat
`i = 5*i + perturb + 1; perturb >>= 5` (with `size_t` wraparound) until the
slot `i % 8` is free.  The fuel of 200 is more than enough: after at most 13
shifts `perturb` is zero and `i ↦ 5*i + 1` then cycles through all 8 residues.
The equal-key branch of the real probe never fires here because the keys
inserted below are pairwise distinct. -/
def py2_probe (occupied : Nat → Bool) (i perturb : Nat) : Nat → Nat
  | 0 => i % 8
  | fuel + 1 =>
    let j := (5 * i + perturb + 1) % (2 ^ 64)
    if occupied (j % 8) then py2_probe occupied j (perturb >>> 5) fuel else j % 8

/-- The slot CPython 2.7 stores a key with hash `h` into, in an 8-slot table:
the initial index is `h & 7`; on collision the probe loop runs with the
initial index and `perturb = h`. -/
def py2_slot (occupied : Nat → Bool) (h : Nat) : Nat :=
  if occupied (h % 8) then py2_probe occupied (h % 8) h 200 else h % 8

/-- Insert one key/value pair into an 8-slot CPython 2.7 hash table. -/
def py2_dict_insert (table : List (Option (PyStr × PyStr))) (kv : PyStr × PyStr) :
    List (Option (PyStr × PyStr)) :=
  let occupied : Nat → Bool := fun n => (table.getD n Option.none).isSome
  table.set (py2_slot occupied (py2_string_hash kv.1)) (some kv)

/-- The 8-slot table a CPython 2.7 dict literal with these (at most 5) pairs
ends up with: pairs are inserted in source order into a fresh table
(`_PyDict_NewPresized` keeps the minimum size 8 for 5 or fewer entries, and
no resize is triggered below a fill of 6). -/
def py2_dict_table (pairs : List (PyStr × PyStr)) : List (Option (PyStr × PyStr)) :=
  pairs.foldl py2_dict_insert (List.replicate 8 Option.none)

/-- The iteration order of `dict.iteritems()` in CPython 2.7: entries in
ascending slot order of the hash table. -/
def py2_iteritems (pairs : List (PyStr × PyStr)) : List (PyStr × PyStr) :=
  (py2_dict_table pairs).filterMap id

/-- `type_string_to_entry_point_group_map` (loader.py lines 7-13), a Python
`dict` literal, as its key/value pairs in source order. -/
def type_string_to_entry_point_group_map : List (PyStr × PyStr) :=
  [(("calculation.job.").data, ("aiida.calculations").data),
   (("calculation.").data, ("aiida.calculations").data),
   (("code.").data, ("aiida.code").data),
   (("data.").data, ("aiida.data").data),
   (("node.").data, ("aiida.node").data)]

/-- The three entry-point lookup failures `load_plugin` catches
(`MissingEntryPointError`, `MultipleEntryPointError`,
`LoadingEntryPointError`). -/
inductive EntryPointLoadError where
  | missingEntryPoint
  | multipleEntryPoint
  | loadingEntryPoint
deriving DecidableEq

/-- The errors the embedded loader functions raise: `missingPlugin` embeds
`MissingPluginError`, `dbContent` embeds `DbContentError` with its message,
and `valueError` embeds an uncaught Python `ValueError` (never actually
produced; see the theorems). -/
inductive PluginError where
  | missingPlugin
  | dbContent (msg : PyStr)
  | valueError
deriving DecidableEq

/-- The result of `load_plugin`: either the base `Data` class returned by the
special case, or the plugin class the entry-point registry returned. -/
inductive LoadedPlugin (α : Type) where
  | dataBase
  | entryPoint (a : α)
deriving DecidableEq

deriving instance DecidableEq for Except

/-- The prefix-table scan inside `load_plugin` (loader.py lines 39-47): walk
the `iteritems()` sequence; at the first pair whose key is a leading segment
of the base path, strip that key and look the remainder up in the mapped
registry group, turning any of the three entry-point failures into
`MissingPluginError`; falling off the end (loader.py line 49) also raises
`MissingPluginError`.  The registry lookup `load_entry_point` is an external
boundary and is a parameter. -/
def scan_entry_point_groups {α : Type}
    (load_entry_point : PyStr → PyStr → Except EntryPointLoadError α) (base_path : PyStr) :
    List (PyStr × PyStr) → Except PluginError (LoadedPlugin α)
  | [] => .error .missingPlugin
  | (pfx, group) :: rest =>
    if pyStartswith base_path pfx then
      match strip_prefix base_path pfx with
      | Option.none => .error .valueError
      | Option.some ep =>
        match load_entry_point group ep with
        | .error _ => .error .missingPlugin
        | .ok plugin => .ok (.entryPoint plugin)
    else scan_entry_point_groups load_entry_point base_path rest

/-- `load_plugin` (loader.py lines 16-49): the special case `'data.Data'`
returns the base `Data` class; otherwise `rsplit('.', 1)` must produce a base
path and a class name (a `ValueError`, i.e. no `'.'` at all, becomes
`MissingPluginError`); a single-segment base path is doubled
(`'{}.{}'.format(base_path, base_path)`); then the prefix table is scanned in
its CPython 2.7 `iteritems()` order. -/
def load_plugin {α : Type} (load_entry_point : PyStr → PyStr → Except EntryPointLoadError α)
    (plugin_type : PyStr) : Except PluginError (LoadedPlugin α) :=
  if plugin_type = ("data.Data").data then .ok .dataBase
  else
    match pyRsplitN plugin_type (".").data 1 with
    | [bp, _class_name] =>
      let base_path := if bp.count ('.' : Char) = 0 then bp ++ (".").data ++ bp else bp
      scan_entry_point_groups load_entry_point base_path
        (py2_iteritems type_string_to_entry_point_group_map)
    | _ => .error .missingPlugin

/-- The `DbContentError` message `"The type string '{}' is invalid"` with the
type string substituted. -/
def invalid_type_string_msg (ts : PyStr) : PyStr :=
  ("The type string \x27").data ++ ts ++ ("\x27 is invalid").data

/-- `get_plugin_type_from_type_string` (loader.py lines 52-66): the empty
string is first replaced by `'node.Node.'`; a string not ending in `'.'`
raises `DbContentError`; otherwise the trailing period is removed
(`type_string[:-1]`). -/
def get_plugin_type_from_type_string (type_string : PyStr) : Except PluginError PyStr :=
  let ts := if type_string = [] then ("node.Node.").data else type_string
  if pyEndswith ts (".").data then .ok ts.dropLast
  else .error (.dbContent (invalid_type_string_msg ts))

/-- `get_query_type_from_type_string` (loader.py lines 69-85): the empty
string maps to itself; a string not ending in `'.'`, or containing exactly
one `'.'`, raises `DbContentError`; otherwise
`type_path, type_class, sep = type_string.rsplit('.', 2)` and the result is
`type_path + '.'`.  The unpacking cannot fail after the guard (the string
ends in `'.'` and contains at least two, so `rsplit('.', 2)` has exactly
three parts); its `ValueError` case is embedded as `valueError`. -/
def get_query_type_from_type_string (type_string : PyStr) : Except PluginError PyStr :=
  if type_string = [] then .ok []
  else if !pyEndswith type_string (".").data || type_string.count ('.' : Char) == 1 then
    .error (.dbContent (invalid_type_string_msg type_string))
  else
    match pyRsplitN type_string (".").data 2 with
    | [type_path, _type_class, _sep] => .ok (type_path ++ (".").data)
    | _ => .error .valueError

/-- The facets of the object handed to `MsonableData.__init__` that the
constructor inspects: whether it is an instance of the `MSONable` base class,
whether it has an `as_dict` and a `from_dict` attribute and whether each is
callable, and the mapping its `as_dict()` returns. -/
structure MSONableObj where
  is_mson : Bool
  has_as_dict : Bool
  as_dict_callable : Bool
  has_from_dict : Bool
  from_dict_callable : Bool
  as_dict_value : PyVal

/-- The state `MsonableData.__init__` leaves on the node when it succeeds:
the cached wrapped object `_obj` and the attribute set
`set_attribute_many(preprocess.process(obj.as_dict()))`. -/
structure MsonableDataState where
  _obj : MSONableObj
  attributes : PyVal

namespace MsonableData

/-- `MsonableData.__init__` (msonable.py lines 40-56): a `None` object, an
object that is not an `MSONable` instance, and an object whose `as_dict` or
`from_dict` is missing or not callable each raise `TypeError` (carried here
as the error message) before any attribute is set; otherwise the object is
cached and the preprocessed `as_dict()` mapping becomes the attribute set.
The `obj` argument is `Option`-valued, `Option.none` embedding Python
`None`. -/
def init (obj : Option MSONableObj) : Except String MsonableDataState :=
  match obj with
  | Option.none => .error "the `obj` argument cannot be `None`."
  | Option.some o =>
    if !o.is_mson then .error "the `obj` argument needs to implement the ``MSONable`` class."
    else if !(o.has_as_dict && o.as_dict_callable) then
      .error "the `obj` argument does not have the required `as_dict` method."
    else if !(o.has_from_dict && o.from_dict_callable) then
      .error "the `obj` argument does not have the required `from_dict` method."
    else .ok { _obj := o, attributes := JSONPreprocessor.process o.as_dict_value }

end MsonableData

/-- The outcome of the compute-resource `setup` command as far as the
`default_mpiprocs_per_machine` property is concerned: either a resource is
stored (with the property either absent or set to an integer), or the
command fails with a diagnostic and no resource is stored. -/
inductive ComputerSetupOutcome where
  | stored (default_mpiprocs_per_machine : Option Int)
  | failed (diagnostic : String)
deriving DecidableEq

/-- Modelled from the spec: the `verdi computer setup` handling of the
`--mpiprocs-per-machine` value.  The CLI/builder implementation is not among
the source files; only its tests are (test_computer.py lines 213-253).  The
spec says the property is "positive integer or absent; the literal value `0`
is normalized to absent; negative values are rejected", and that a negative
value "fails with a \x22must be positive\x22 diagnostic and no resource is
stored" (the test expects the text `mpiprocs_per_machine, must be
positive`). -/
def setup_default_mpiprocs_per_machine : Option Int → ComputerSetupOutcome
  | Option.none => .stored Option.none
  | Option.some n =>
    if n < 0 then .failed "mpiprocs_per_machine, must be positive"
    else if n = 0 then .stored Option.none
    else .stored (Option.some n)

/-- A registry stub that records the (group, entry-name) pair it is queried
with, used to observe which lookup `load_plugin` performs. -/
def record_registry : PyStr → PyStr → Except EntryPointLoadError (PyStr × PyStr) :=
  fun group entry => .ok (group, entry)

mutual

/-- The domain stated by the round-trip claim: every leaf of the mapping is a
JSON-safe value (string, int, bool, `None`, finite float) or one of the three
special floats NaN, `+inf`, `-inf`. -/
def json_safe_or_special : PyVal → Bool
  | .str _ => true
  | .int _ => true
  | .bool _ => true
  | .pynone => true
  | .float _ => true
  | .list xs => json_safe_or_special_list xs
  | .dict kvs => json_safe_or_special_dict kvs
  | _ => false

/-- `json_safe_or_special` over every element of a list. -/
def json_safe_or_special_list : List PyVal → Bool
  | [] => true
  | v :: vs => json_safe_or_special v && json_safe_or_special_list vs

/-- `json_safe_or_special` over every value of a dictionary. -/
def json_safe_or_special_dict : List (String × PyVal) → Bool
  | [] => true
  | (_, v) :: kvs => json_safe_or_special v && json_safe_or_special_dict kvs

end

mutual

/-- The amended round-trip domain: as `json_safe_or_special`, but no string
leaf is one of the three sentinel literals `Infinity`, `-Infinity`, `NaN`
(the decode stage turns those strings into floats unconditionally). -/
def sentinel_free : PyVal → Bool
  | .str s => !(s == "Infinity" || s == "-Infinity" || s == "NaN")
  | .int _ => true
  | .bool _ => true
  | .pynone => true
  | .float _ => true
  | .list xs => sentinel_free_list xs
  | .dict kvs => sentinel_free_dict kvs
  | _ => false

/-- `sentinel_free` over every element of a list. -/
def sentinel_free_list : List PyVal → Bool
  | [] => true
  | v :: vs => sentinel_free v && sentinel_free_list vs

/-- `sentinel_free` over every value of a dictionary. -/
def sentinel_free_dict : List (String × PyVal) → Bool
  | [] => true
  | (_, v) :: kvs => sentinel_free v && sentinel_free_dict kvs

end

mutual

/-- On every value whose leaves are JSON-safe or special floats and whose
string leaves avoid the three sentinel literals, decoding after encoding is
the identity. -/
theorem roundtrip_val (v : PyVal) (h : sentinel_free v = true) :
    JSONPostprocessor.process (JSONPreprocessor.process v) = v := by
  cases v with
  | str s =>
    have h1 : (¬(s = "Infinity") ∧ ¬(s = "-Infinity")) ∧ ¬(s = "NaN") := by
      simpa [sentinel_free] using h
    simp [JSONPreprocessor.process, JSONPreprocessor.process_additional,
          JSONPreprocessor.process_nan, JSONPostprocessor.process,
          JSONPostprocessor.process_nan, JSONPostprocessor.process_additional,
          MontyDecoder.process_decoded, h1.1.1, h1.1.2, h1.2]
  | int n => rfl
  | bool b => rfl
  | pynone => rfl
  | float f => cases f <;> rfl
  | datetime s => simp [sentinel_free] at h
  | uuid s => simp [sentinel_free] at h
  | ndarray dt re im => simp [sentinel_free] at h
  | npgeneric x => simp [sentinel_free] at h
  | objectid oid => simp [sentinel_free] at h
  | obj m q c ms => simp [sentinel_free] at h
  | list xs =>
    have hr := roundtrip_list xs (by simpa [sentinel_free] using h)
    simp [JSONPreprocessor.process, JSONPostprocessor.process, hr]
  | dict kvs =>
    have hr := roundtrip_dict kvs (by simpa [sentinel_free] using h)
    simp [JSONPreprocessor.process, JSONPostprocessor.process, hr]

/-- Elementwise round trip through a list. -/
theorem roundtrip_list (xs : List PyVal) (h : sentinel_free_list xs = true) :
    JSONPostprocessor.processList (JSONPreprocessor.processList xs) = xs := by
  cases xs with
  | nil => rfl
  | cons v vs =>
    have h2 : sentinel_free v = true ∧ sentinel_free_list vs = true := by
      simpa [sentinel_free_list] using h
    simp [JSONPreprocessor.processList, JSONPostprocessor.processList,
          roundtrip_val v h2.1, roundtrip_list vs h2.2]

/-- Valuewise round trip through a dictionary. -/
theorem roundtrip_dict (kvs : List (String × PyVal)) (h : sentinel_free_dict kvs = true) :
    JSONPostprocessor.processDict (JSONPreprocessor.processDict kvs) = kvs := by
  cases kvs with
  | nil => rfl
  | cons kv kvs' =>
    have h2 : sentinel_free kv.2 = true ∧ sentinel_free_dict kvs' = true := by
      cases kv with
      | mk k v => simpa [sentinel_free_dict] using h
    cases kv with
    | mk k v =>
      simp [JSONPreprocessor.processDict, JSONPostprocessor.processDict,
            roundtrip_val v h2.1, roundtrip_dict kvs' h2.2]

end

/-- C1, counterexample: the claim quantifies over every mapping whose leaves
are JSON-safe values plus NaN and the infinities, but the mapping
`{'x': 'NaN'}` — whose only leaf is the JSON-safe string `'NaN'` — is inside
that domain and does not round trip: the encode pipeline stores the string
unchanged and the decode pipeline turns it into the float NaN. -/
theorem C1_counterexample :
    json_safe_or_special (.dict [("x", .str "NaN")]) = true ∧
    JSONPostprocessor.process (JSONPreprocessor.process (.dict [("x", .str "NaN")]))
      ≠ .dict [("x", .str "NaN")] := by
  refine ⟨rfl, ?_⟩
  have he : JSONPostprocessor.process (JSONPreprocessor.process (.dict [("x", .str "NaN")]))
      = .dict [("x", .float .nan)] := rfl
  rw [he]
  simp

/-- C1, amended: for every serialized mapping whose leaves are JSON-safe
values plus IEEE-754 NaN and the two infinities, and in which no string leaf
is one of the literal strings `NaN`, `Infinity`, `-Infinity`, the encode
pipeline (`JSONPreprocessor.process`) followed by the decode pipeline
(`JSONPostprocessor.process`) yields a mapping equal to the original (NaN
compared as a value equal to itself); the sentinel stage maps positive
infinity to the string `Infinity`, negative infinity to `-Infinity` and NaN
to `NaN`, and the decode stage inverts each of these. -/
theorem C1_roundtrip :
    (∀ kvs : List (String × PyVal), sentinel_free_dict kvs = true →
      JSONPostprocessor.process (JSONPreprocessor.process (.dict kvs)) = .dict kvs)
    ∧ JSONPreprocessor.process_nan (.float .inf) = .str "Infinity"
    ∧ JSONPreprocessor.process_nan (.float .ninf) = .str "-Infinity"
    ∧ JSONPreprocessor.process_nan (.float .nan) = .str "NaN"
    ∧ JSONPostprocessor.process_nan (.str "Infinity") = .float .inf
    ∧ JSONPostprocessor.process_nan (.str "-Infinity") = .float .ninf
    ∧ JSONPostprocessor.process_nan (.str "NaN") = .float .nan := by
  refine ⟨?_, rfl, rfl, rfl, rfl, rfl, rfl⟩
  intro kvs h
  exact roundtrip_val (.dict kvs) (by simpa [sentinel_free] using h)

/-- C1, witness: a concrete mapping holding NaN, both infinities, an int, a
bool, `None`, a non-sentinel string and a nested list round trips. -/
theorem C1_roundtrip_witness :
    sentinel_free_dict
        [("a", .float .inf), ("b", .float .ninf), ("c", .float .nan), ("d", .int 42),
         ("e", .str "hello"), ("f", .list [.float .nan, .bool true]), ("g", .pynone)] = true ∧
    JSONPostprocessor.process (JSONPreprocessor.process
        (.dict [("a", .float .inf), ("b", .float .ninf), ("c", .float .nan), ("d", .int 42),
                ("e", .str "hello"), ("f", .list [.float .nan, .bool true]), ("g", .pynone)]))
      = .dict [("a", .float .inf), ("b", .float .ninf), ("c", .float .nan), ("d", .int 42),
               ("e", .str "hello"), ("f", .list [.float .nan, .bool true]), ("g", .pynone)] :=
  ⟨by rfl,
   C1_roundtrip.1
     [("a", .float .inf), ("b", .float .ninf), ("c", .float .nan), ("d", .int 42),
      ("e", .str "hello"), ("f", .list [.float .nan, .bool true]), ("g", .pynone)] (by rfl)⟩

/-- C9: the sentinel decode stage is not injective on strings — on a stored
attribute set whose leaf is the genuine string `'NaN'` (or `'Infinity'`,
`'-Infinity'`), `JSONPostprocessor.process` replaces the string with the
corresponding IEEE-754 float, so the string is not recovered intact. -/
theorem C9_decode_not_injective :
    JSONPostprocessor.process (.dict [("x", .str "NaN")]) = .dict [("x", .float .nan)]
    ∧ JSONPostprocessor.process (.dict [("x", .str "Infinity")]) = .dict [("x", .float .inf)]
    ∧ JSONPostprocessor.process (.dict [("x", .str "-Infinity")]) = .dict [("x", .float .ninf)]
    ∧ PyVal.str "NaN" ≠ PyVal.float .nan :=
  ⟨rfl, rfl, rfl, by simp⟩

/-- C2: the code evaluated at the failing input.  `strip_prefix` is
implemented as `string.rsplit(prefix)[1]`, a split-and-take: on
`('data.data.data', 'data.')` the split is `['', '', 'data']` and the code
returns `''`, while removing the single leading occurrence of the prefix
(the spec's and the docstring's reading) yields `'data.data'`. -/
theorem C2_code_divergence :
    strip_prefix ("data.data.data").data ("data.").data = some [] ∧
    some ([] : PyStr) ≠ some ("data.data").data := by
  refine ⟨by decide, by decide⟩

/-- C7: `MsonableData.__init__` raises `TypeError` on a `None` object and on
an object whose `as_dict` or `from_dict` capability is missing or not
callable (no attribute state is recorded — the error carries no node state);
it succeeds for every `MSONable` instance carrying both invocable
capabilities, caching the object and storing the preprocessed `as_dict()`
mapping. -/
theorem C7_init_validation :
    (MsonableData.init Option.none = .error "the `obj` argument cannot be `None`.")
    ∧ (∀ o : MSONableObj,
        (o.has_as_dict && o.as_dict_callable) = false ∨
          (o.has_from_dict && o.from_dict_callable) = false →
        ∃ e, MsonableData.init (Option.some o) = .error e)
    ∧ (∀ o : MSONableObj, o.is_mson = true →
        (o.has_as_dict && o.as_dict_callable) = true →
        (o.has_from_dict && o.from_dict_callable) = true →
        MsonableData.init (Option.some o)
          = .ok { _obj := o, attributes := JSONPreprocessor.process o.as_dict_value }) := by
  refine ⟨rfl, ?_, ?_⟩
  · intro o h
    cases hm : o.is_mson
    · exact ⟨"the `obj` argument needs to implement the ``MSONable`` class.",
        by simp [MsonableData.init, hm]⟩
    · cases ha : o.has_as_dict && o.as_dict_callable
      · exact ⟨"the `obj` argument does not have the required `as_dict` method.",
          by simp [MsonableData.init, hm, ha]⟩
      · cases hf : o.has_from_dict && o.from_dict_callable
        · exact ⟨"the `obj` argument does not have the required `from_dict` method.",
            by simp [MsonableData.init, hm, ha, hf]⟩
        · rcases h with h | h
          · rw [ha] at h; cases h
          · rw [hf] at h; cases h
  · intro o hm ha hf
    simp [MsonableData.init, hm, ha, hf]

/-- C7, witness: a concrete object whose `as_dict` is present but not
callable is rejected, and a concrete fully capable `MSONable` object is
accepted with its preprocessed mapping as attributes. -/
theorem C7_init_witness :
    (∃ e, MsonableData.init (Option.some
        ⟨true, true, false, true, true, PyVal.pynone⟩) = .error e)
    ∧ MsonableData.init (Option.some
        ⟨true, true, true, true, true, PyVal.dict [("x", .float .nan)]⟩)
      = .ok ⟨⟨true, true, true, true, true, PyVal.dict [("x", .float .nan)]⟩,
             JSONPreprocessor.process (PyVal.dict [("x", .float .nan)])⟩ :=
  ⟨C7_init_validation.2.1 _ (Or.inl rfl), C7_init_validation.2.2 _ rfl rfl rfl⟩

/-- C8: in resource setup, an omitted `mpiprocs-per-machine` and the literal
value `0` both leave the stored `default_mpiprocs_per_machine` property
absent; every negative value fails with the "must be positive" diagnostic
and no resource is stored; every positive value is stored verbatim. -/
theorem C8_default_mpiprocs :
    setup_default_mpiprocs_per_machine Option.none = .stored Option.none
    ∧ setup_default_mpiprocs_per_machine (Option.some 0) = .stored Option.none
    ∧ (∀ n : Int, n < 0 → setup_default_mpiprocs_per_machine (Option.some n)
        = .failed "mpiprocs_per_machine, must be positive")
    ∧ (∀ n : Int, 0 < n → setup_default_mpiprocs_per_machine (Option.some n)
        = .stored (Option.some n)) := by
  refine ⟨rfl, rfl, ?_, ?_⟩
  · intro n h
    simp [setup_default_mpiprocs_per_machine, h]
  · intro n h
    have h1 : ¬(n < 0) := by omega
    have h2 : ¬(n = 0) := by omega
    simp [setup_default_mpiprocs_per_machine, h1, h2]

/-- C8, witness: the value `-1` fails with the diagnostic and the value `4`
is stored verbatim. -/
theorem C8_default_mpiprocs_witness :
    ((-1 : Int) < 0 ∧ setup_default_mpiprocs_per_machine (Option.some (-1))
        = .failed "mpiprocs_per_machine, must be positive")
    ∧ ((0 : Int) < 4 ∧ setup_default_mpiprocs_per_machine (Option.some 4)
        = .stored (Option.some 4)) :=
  ⟨⟨by decide, C8_default_mpiprocs.2.2.1 (-1) (by decide)⟩,
   ⟨by decide, C8_default_mpiprocs.2.2.2 4 (by decide)⟩⟩

theorem pyStartswith_nil (s : PyStr) : pyStartswith s [] = true := by
  cases s <;> rfl

theorem pyStartswith_append (p t : PyStr) : pyStartswith (p ++ t) p = true := by
  induction p with
  | nil => simpa using pyStartswith_nil t
  | cons c p ih => simp [pyStartswith, ih]

theorem pyStartswith_ex {s p : PyStr} (h : pyStartswith s p = true) : ∃ t, s = p ++ t := by
  induction p generalizing s with
  | nil => exact ⟨s, rfl⟩
  | cons d p ih =>
    cases s with
    | nil => cases h
    | cons c s =>
      have h2 : (c == d) = true ∧ pyStartswith s p = true := by
        simpa [pyStartswith] using h
      obtain ⟨t, ht⟩ := ih h2.2
      exact ⟨t, by simp [ht, (beq_iff_eq).mp h2.1]⟩

theorem pyStartswith_of_append {s p r : PyStr} (h : pyStartswith s (p ++ r) = true) :
    pyStartswith s p = true := by
  obtain ⟨t, ht⟩ := pyStartswith_ex h
  rw [ht, List.append_assoc]
  exact pyStartswith_append p (r ++ t)

theorem pyEndswith_dot_ex {s : PyStr} (h : pyEndswith s (".").data = true) :
    ∃ t, s = t ++ [('.' : Char)] := by
  obtain ⟨r, hr⟩ := pyStartswith_ex (by simpa [pyEndswith] using h)
  refine ⟨r.reverse, ?_⟩
  have := congrArg List.reverse hr
  simpa using this

theorem pyEndswith_dot_intro (t : PyStr) : pyEndswith (t ++ [('.' : Char)]) (".").data = true := by
  simp [pyEndswith, pyStartswith]

theorem mem_of_pyStartswith_dot {u : PyStr} (h : pyStartswith u (".").data = true) :
    ('.' : Char) ∈ u := by
  cases u with
  | nil => cases h
  | cons c u =>
    have h2 : (c == ('.' : Char)) = true := by
      have := (by simpa [pyStartswith] using h : (c == ('.' : Char)) = true ∧ True)
      exact this.1
    simp [(beq_iff_eq).mp h2]

theorem rfindFrom_here (s sep : PyStr) (i : Nat) (h : pyStartswith (s.drop i) sep = true) :
    rfindFrom s sep i = some i := by
  cases i with
  | zero =>
    rw [List.drop_zero] at h
    simp [rfindFrom, h]
  | succ j => simp [rfindFrom, h]

theorem rfindFrom_isSome (s sep : PyStr) :
    ∀ k j : Nat, j ≤ k → pyStartswith (s.drop j) sep = true →
      ∃ m, rfindFrom s sep k = some m ∧ pyStartswith (s.drop m) sep = true := by
  intro k
  induction k with
  | zero =>
    intro j hj h
    have hj0 : j = 0 := Nat.le_zero.mp hj
    subst hj0
    exact ⟨0, rfindFrom_here s sep 0 h, h⟩
  | succ k ih =>
    intro j hj h
    by_cases hc : pyStartswith (s.drop (k + 1)) sep = true
    · exact ⟨k + 1, by simp [rfindFrom, hc], hc⟩
    · have hjk : j ≤ k := by
        rcases Nat.lt_or_ge j (k + 1) with hlt | hge
        · omega
        · exfalso
          have : j = k + 1 := by omega
          rw [this] at h
          exact hc h
      obtain ⟨m, hm, hsw⟩ := ih j hjk h
      refine ⟨m, ?_, hsw⟩
      simp [rfindFrom, hc, hm]

theorem rfindFrom_none_of_no_dot (s : PyStr) (hs : ('.' : Char) ∉ s) :
    ∀ i : Nat, rfindFrom s (".").data i = none := by
  intro i
  induction i with
  | zero =>
    have hc : ¬ pyStartswith (s.drop 0) (".").data = true := by
      intro h
      exact hs (by simpa using mem_of_pyStartswith_dot h)
    simp only [rfindFrom]
    rw [if_neg (by simpa using hc)]
  | succ j ih =>
    have hc : ¬ pyStartswith (s.drop (j + 1)) (".").data = true := by
      intro h
      exact hs (List.drop_subset _ s (mem_of_pyStartswith_dot h))
    simp only [rfindFrom]
    rw [if_neg (by simpa using hc), ih]

/-- For any non-empty Python prefix, `strip_prefix` never raises: it always
returns a value. -/
theorem strip_some (s pfx : PyStr) (h : pfx ≠ []) : ∃ r, strip_prefix s pfx = some r := by
  by_cases hs : pyStartswith s pfx = true
  · exact ⟨(pyRsplitAll s pfx).getD 1 [], by simp [ strip_prefix, hs, h]⟩
  · exact ⟨s, by simp [ strip_prefix, hs]⟩

/-- C10: the generic encode stage returns a value that is both callable and
an `MSONable` instance unchanged; the callable-reference branch
(`_serialize_callable`) fires exactly for callable values that are not
`MSONable` instances. -/
theorem C10_callable_msonable_unchanged :
    (∀ m q : String, JSONPreprocessor.process_additional (.obj m q true true) = .obj m q true true)
    ∧ (∀ (m q : String) (s : Bool),
        JSONPreprocessor.process_additional (.obj m q false s) = .obj m q false s)
    ∧ (∀ m q : String,
        JSONPreprocessor.process_additional (.obj m q true false) = serialize_callable m q) := by
  refine ⟨?_, ?_, ?_⟩
  · intro m q; simp [JSONPreprocessor.process_additional]
  · intro m q s; simp [JSONPreprocessor.process_additional]
  · intro m q; simp [JSONPreprocessor.process_additional]

/-- The CPython 2.7 iteration order of the prefix table, computed from the
hash-table model: `calculation.job.` comes before `calculation.`, and the
order is a fixed property of the table. -/
theorem iteritems_eval :
    py2_iteritems type_string_to_entry_point_group_map =
      [(("calculation.job.").data, ("aiida.calculations").data),
       (("calculation.").data, ("aiida.calculations").data),
       (("data.").data, ("aiida.data").data),
       (("code.").data, ("aiida.code").data),
       (("node.").data, ("aiida.node").data)] := by decide

/-- With a registry in which every lookup fails, the prefix-table scan always
reports `MissingPluginError` (for any failure kind and any base path),
provided no table prefix is empty. -/
theorem scan_const_error {α : Type} (e : EntryPointLoadError) (base : PyStr) :
    ∀ items : List (PyStr × PyStr), (∀ kv ∈ items, kv.1 ≠ []) →
      scan_entry_point_groups (fun _ _ => (Except.error e : Except EntryPointLoadError α)) base
        items = .error .missingPlugin := by
  intro items
  induction items with
  | nil => intro _; rfl
  | cons kv rest ih =>
    intro h
    obtain ⟨pfx, group⟩ := kv
    have hp : pfx ≠ [] := h (pfx, group) (List.mem_cons_self _ _)
    by_cases hs : pyStartswith base pfx = true
    · obtain ⟨r, hr⟩ := strip_some base pfx hp
      simp [scan_entry_point_groups, hs, hr]
    · simp [scan_entry_point_groups, hs, ih (fun kv hm => h kv (List.mem_cons_of_mem _ hm))]

/-- For any registry, the prefix-table scan either returns a plugin or
reports `MissingPluginError`, provided no table prefix is empty. -/
theorem scan_ok_or_missing {α : Type}
    (lep : PyStr → PyStr → Except EntryPointLoadError α) (base : PyStr) :
    ∀ items : List (PyStr × PyStr), (∀ kv ∈ items, kv.1 ≠ []) →
      (∃ r, scan_entry_point_groups lep base items = .ok r)
        ∨ scan_entry_point_groups lep base items = .error .missingPlugin := by
  intro items
  induction items with
  | nil => intro _; exact Or.inr rfl
  | cons kv rest ih =>
    intro h
    obtain ⟨pfx, group⟩ := kv
    have hp : pfx ≠ [] := h (pfx, group) (List.mem_cons_self _ _)
    by_cases hs : pyStartswith base pfx = true
    · obtain ⟨r, hr⟩ := strip_some base pfx hp
      cases hlep : lep group r with
      | ok a => exact Or.inl ⟨.entryPoint a, by simp [scan_entry_point_groups, hs, hr, hlep]⟩
      | error err => exact Or.inr (by simp [scan_entry_point_groups, hs, hr, hlep])
    · rcases ih (fun kv hm => h kv (List.mem_cons_of_mem _ hm)) with ⟨a, ha⟩ | hmiss
      · exact Or.inl ⟨a, by simp [scan_entry_point_groups, hs, ha]⟩
      · exact Or.inr (by simp [scan_entry_point_groups, hs, hmiss])

/-- A string containing no `'.'` does not split on `'.'`. -/
theorem rsplit_no_dot (pt : PyStr) (h : pt.count ('.' : Char) = 0) :
    pyRsplitN pt (".").data 1 = [pt] := by
  have hmem : ('.' : Char) ∉ pt := List.count_eq_zero.mp h
  simp [pyRsplitN, rfindSub, rfindFrom_none_of_no_dot pt hmem]

/-- A base path that starts with a prefix containing a `'.'` itself contains
a `'.'`. -/
theorem count_dot_ne_zero_of_startswith {s pfx : PyStr} (h : pyStartswith s pfx = true)
    (hd : ('.' : Char) ∈ pfx) : s.count ('.' : Char) ≠ 0 := by
  obtain ⟨t, rfl⟩ := pyStartswith_ex h
  intro h0
  exact (List.count_eq_zero.mp h0) (List.mem_append_left t hd)

/-- A non-empty type string that ends in `'.'` and whose `'.'`-count is not
one splits under `rsplit('.', 2)` into a parent path, a class segment and an
empty tail, and is their `'.'`-joined concatenation. -/
theorem rsplit2_decomp (ts : PyStr) (hend : pyEndswith ts (".").data = true)
    (hc : ts.count ('.' : Char) ≠ 1) :
    ∃ tp tc, pyRsplitN ts (".").data 2 = [tp, tc, []]
      ∧ ts = tp ++ ('.' :: tc) ++ [('.' : Char)] := by
  obtain ⟨t, rfl⟩ := pyEndswith_dot_ex hend
  have hcount : (t ++ [('.' : Char)]).count ('.' : Char) = t.count ('.' : Char) + 1 := by
    simp [List.count_append]
  have hct : t.count ('.' : Char) ≠ 0 := by
    rw [hcount] at hc
    omega
  have hmem : ('.' : Char) ∈ t := by
    by_contra hnm
    exact hct (List.count_eq_zero.mpr hnm)
  have htne : t.length ≠ 0 := by
    intro h0
    rw [List.eq_nil_of_length_eq_zero h0] at hmem
    cases hmem
  have hdropt : (t ++ [('.' : Char)]).drop t.length = [('.' : Char)] := List.drop_left t _
  have hrf : rfindSub (t ++ [('.' : Char)]) (".").data = some t.length := by
    have hidx : (t ++ [('.' : Char)]).length - (".").data.length = t.length := by simp
    rw [rfindSub, hidx]
    exact rfindFrom_here _ _ _ (by rw [hdropt]; rfl)
  have houter : pyRsplitN (t ++ [('.' : Char)]) (".").data 2
      = pyRsplitN ((t ++ [('.' : Char)]).take t.length) (".").data 1
        ++ [(t ++ [('.' : Char)]).drop (t.length + 1)] := by
    simp [pyRsplitN, hrf]
  have htake : (t ++ [('.' : Char)]).take t.length = t := List.take_left t _
  have hdropall : (t ++ [('.' : Char)]).drop (t.length + 1) = [] := by
    have : (t ++ [('.' : Char)]).length = t.length + 1 := by simp
    rw [← this]
    exact List.drop_length _
  obtain ⟨n, hn, hget⟩ := List.getElem_of_mem hmem
  have hswn : pyStartswith (t.drop n) (".").data = true := by
    rw [← List.getElem_cons_drop t n hn, hget]
    simp [pyStartswith, pyStartswith_nil]
  obtain ⟨m, hm, hswm⟩ := rfindFrom_isSome t (".").data (t.length - 1) n (by omega) hswn
  have hmlt : m < t.length := by
    by_contra hge
    rw [List.drop_eq_nil_of_le (by omega)] at hswm
    cases hswm
  have hheadm : t[m] = ('.' : Char) := by
    have hdm := (List.getElem_cons_drop t m hmlt).symm
    rw [hdm] at hswm
    have h2 : (t[m] == ('.' : Char)) = true ∧ True := by
      simpa [pyStartswith, pyStartswith_nil] using hswm
    exact (beq_iff_eq).mp h2.1
  have hdm : t.drop m = ('.' : Char) :: t.drop (m + 1) := by
    rw [← List.getElem_cons_drop t m hmlt, hheadm]
  have ht : t = t.take m ++ ('.' :: t.drop (m + 1)) := by
    rw [← hdm]
    exact (List.take_append_drop m t).symm
  have hinner : pyRsplitN t (".").data 1 = [t.take m, t.drop (m + 1)] := by
    have : rfindSub t (".").data = some m := by
      rw [rfindSub]
      have : (".").data.length = 1 := rfl
      rw [this, hm]
    simp [pyRsplitN, this]
  refine ⟨t.take m, t.drop (m + 1), ?_, ?_⟩
  · rw [houter, htake, hdropall, hinner]
    rfl
  · conv_lhs => rw [ht]

/-- C3: for every plugin type string whose base path matches more than one
prefix-table entry (in particular any base path starting with
`calculation.job.`, which also starts with `calculation.`), `load_plugin`
scans the table in a fixed order — the CPython 2.7 `iteritems()` order
derived in `iteritems_eval`, in which `calculation.job.` precedes
`calculation.` — and performs the entry-point lookup for the first matching
prefix only, so the (group, entry-name) pair looked up is a deterministic
function of the input type string. -/
theorem C3_first_match_precedence :
    py2_iteritems type_string_to_entry_point_group_map =
      [(("calculation.job.").data, ("aiida.calculations").data),
       (("calculation.").data, ("aiida.calculations").data),
       (("data.").data, ("aiida.data").data),
       (("code.").data, ("aiida.code").data),
       (("node.").data, ("aiida.node").data)]
    ∧ (∀ (α : Type) (lep : PyStr → PyStr → Except EntryPointLoadError α) (pt bp cls : PyStr),
        pyRsplitN pt (".").data 1 = [bp, cls] →
        pt ≠ ("data.Data").data →
        pyStartswith bp ("calculation.job.").data = true →
        pyStartswith bp ("calculation.").data = true ∧
        load_plugin lep pt =
          (match lep ("aiida.calculations").data
              (( strip_prefix bp ("calculation.job.").data).getD []) with
            | .ok a => .ok (.entryPoint a)
            | .error _ => .error .missingPlugin)) := by
  refine ⟨iteritems_eval, ?_⟩
  intro α lep pt bp cls hsplit hne hsw
  have hdec : ("calculation.job.").data = ("calculation.").data ++ ("job.").data := by decide
  refine ⟨pyStartswith_of_append (hdec ▸ hsw), ?_⟩
  have hcnt : ¬(bp.count ('.' : Char) = 0) :=
    count_dot_ne_zero_of_startswith hsw (by decide)
  have hstrip : strip_prefix bp ("calculation.job.").data
      = some ((pyRsplitAll bp ("calculation.job.").data).getD 1 []) := by
    simp [ strip_prefix, hsw]
  rw [load_plugin, if_neg hne, hsplit]
  simp only [hcnt, if_false, iteritems_eval, scan_entry_point_groups, hsw, if_true, hstrip,
    Option.getD_some]
  cases lep ("aiida.calculations").data ((pyRsplitAll bp ("calculation.job.").data).getD 1 []) with
  | ok a => rfl
  | error e => rfl

/-- C3, witness: a concrete `calculation.job.` type string, with a registry
that records the queried pair; the lookup goes to `aiida.calculations` with
the `calculation.job.` prefix stripped (not the `calculation.` one). -/
theorem C3_first_match_witness :
    pyStartswith ("calculation.job.templatereplacer").data ("calculation.").data = true ∧
    load_plugin record_registry
        ("calculation.job.templatereplacer.TemplatereplacerCalculation").data =
      (match record_registry ("aiida.calculations").data
          (( strip_prefix ("calculation.job.templatereplacer").data
              ("calculation.job.").data).getD []) with
        | .ok a => .ok (.entryPoint a)
        | .error _ => .error .missingPlugin) :=
  C3_first_match_precedence.2 (PyStr × PyStr) record_registry
    ("calculation.job.templatereplacer.TemplatereplacerCalculation").data
    ("calculation.job.templatereplacer").data
    ("TemplatereplacerCalculation").data
    (by decide) (by decide) (by decide)

/-- C4: `load_plugin` raises `MissingPluginError` for every type string with
no `'.'`; the literal input `data.Data` returns the base `Data` type without
consulting the registry (the result holds for every registry); with a
registry whose lookups fail — for any of the three failure kinds — every
non-special input produces the single `MissingPluginError`; and in general
the only error `load_plugin` can produce is `MissingPluginError`. -/
theorem C4_error_normalization :
    (∀ (α : Type) (lep : PyStr → PyStr → Except EntryPointLoadError α) (pt : PyStr),
        pt.count ('.' : Char) = 0 → load_plugin lep pt = .error .missingPlugin)
    ∧ (∀ (α : Type) (lep : PyStr → PyStr → Except EntryPointLoadError α),
        load_plugin lep ("data.Data").data = .ok .dataBase)
    ∧ (∀ (α : Type) (e : EntryPointLoadError) (pt : PyStr), pt ≠ ("data.Data").data →
        load_plugin (fun _ _ => (Except.error e : Except EntryPointLoadError α)) pt
          = .error .missingPlugin)
    ∧ (∀ (α : Type) (lep : PyStr → PyStr → Except EntryPointLoadError α) (pt : PyStr),
        (∃ r, load_plugin lep pt = .ok r) ∨ load_plugin lep pt = .error .missingPlugin) := by
  have hpre : ∀ kv ∈ py2_iteritems type_string_to_entry_point_group_map, kv.1 ≠ [] := by
    rw [iteritems_eval]
    decide
  refine ⟨?_, ?_, ?_, ?_⟩
  · intro α lep pt h
    have hne : pt ≠ ("data.Data").data := by
      intro he
      rw [he] at h
      exact absurd h (by decide)
    rw [load_plugin, if_neg hne, rsplit_no_dot pt h]
  · intro α lep
    rfl
  · intro α e pt hne
    rw [load_plugin, if_neg hne]
    rcases hl : pyRsplitN pt (".").data 1 with _ | ⟨a, _ | ⟨b, _ | ⟨c, tl⟩⟩⟩
    · rfl
    · rfl
    · exact scan_const_error e _ _ hpre
    · rfl
  · intro α lep pt
    by_cases hdd : pt = ("data.Data").data
    · exact Or.inl ⟨.dataBase, by rw [hdd]; rfl⟩
    · rw [load_plugin, if_neg hdd]
      rcases hl : pyRsplitN pt (".").data 1 with _ | ⟨a, _ | ⟨b, _ | ⟨c, tl⟩⟩⟩
      · exact Or.inr rfl
      · exact Or.inr rfl
      · exact scan_ok_or_missing lep _ _ hpre
      · exact Or.inr rfl

/-- C4, witness: a dotless string fails with `MissingPluginError`, the
special input returns the base `Data` type, and a well-formed but
unregistered entry (failing registry, `MultipleEntryPointError` kind) is
normalized to `MissingPluginError`. -/
theorem C4_error_normalization_witness :
    load_plugin record_registry ("nodot").data = .error .missingPlugin
    ∧ load_plugin record_registry ("data.Data").data = .ok .dataBase
    ∧ load_plugin
        (fun _ _ => (Except.error .multipleEntryPoint : Except EntryPointLoadError Unit))
        ("data.nonexistent.Kind").data = .error .missingPlugin :=
  ⟨C4_error_normalization.1 (PyStr × PyStr) record_registry ("nodot").data (by decide),
   C4_error_normalization.2.1 (PyStr × PyStr) record_registry,
   C4_error_normalization.2.2.1 Unit .multipleEntryPoint ("data.nonexistent.Kind").data
     (by decide)⟩

/-- C5: `get_query_type_from_type_string` returns the empty string for empty
input; raises `DbContentError` for every non-empty input that does not end
with `'.'` or whose `'.'`-count is one; and for every well-formed input
returns the input with its final `'.'`-delimited class segment dropped,
keeping the parent path followed by a trailing `'.'`. -/
theorem C5_get_query_type :
    (get_query_type_from_type_string [] = .ok [])
    ∧ (∀ ts : PyStr, ts ≠ [] →
        (pyEndswith ts (".").data = false ∨ ts.count ('.' : Char) = 1) →
        get_query_type_from_type_string ts
          = .error (.dbContent (invalid_type_string_msg ts)))
    ∧ (∀ ts : PyStr, pyEndswith ts (".").data = true → ts.count ('.' : Char) ≠ 1 →
        ∃ tp tc, pyRsplitN ts (".").data 2 = [tp, tc, []]
          ∧ ts = tp ++ ('.' :: tc) ++ [('.' : Char)]
          ∧ get_query_type_from_type_string ts = .ok (tp ++ [('.' : Char)])) := by
  refine ⟨rfl, ?_, ?_⟩
  · intro ts hne hor
    have hguard : (!pyEndswith ts (".").data || ts.count ('.' : Char) == 1) = true := by
      rcases hor with h | h
      · simp [h]
      · simp [h]
    simp [get_query_type_from_type_string, hne, hguard]
  · intro ts hend hc
    obtain ⟨tp, tc, hsplit, hts⟩ := rsplit2_decomp ts hend hc
    have hne : ts ≠ [] := by
      rw [hts]
      simp
    have hguard : (!pyEndswith ts (".").data || ts.count ('.' : Char) == 1) = false := by
      simp [hend, hc]
    refine ⟨tp, tc, hsplit, hts, ?_⟩
    rw [get_query_type_from_type_string, if_neg hne, hguard, if_neg (by simp), hsplit]

/-- C5, witness: `data.Data` (no trailing period) is rejected with the
invalid-type-string error; `data.int.Int.` is well-formed and maps to
`data.int.`. -/
theorem C5_get_query_type_witness :
    get_query_type_from_type_string ("data.Data").data
      = .error (.dbContent (invalid_type_string_msg ("data.Data").data))
    ∧ (∃ tp tc, pyRsplitN ("data.int.Int.").data (".").data 2 = [tp, tc, []]
        ∧ ("data.int.Int.").data = tp ++ ('.' :: tc) ++ [('.' : Char)]
        ∧ get_query_type_from_type_string ("data.int.Int.").data = .ok (tp ++ [('.' : Char)])) :=
  ⟨C5_get_query_type.2.1 ("data.Data").data (by decide) (Or.inl (by decide)),
   C5_get_query_type.2.2 ("data.int.Int.").data (by decide) (by decide)⟩

/-- C6: `get_plugin_type_from_type_string` maps the empty string to the
plugin type of the root marker `node.Node.` (namely `node.Node`); raises
`DbContentError` for every non-empty input that does not end with `'.'`; and
for every input ending with `'.'` returns the input with exactly its trailing
`'.'` removed. -/
theorem C6_get_plugin_type :
    (get_plugin_type_from_type_string [] = .ok ("node.Node").data)
    ∧ (∀ ts : PyStr, ts ≠ [] → pyEndswith ts (".").data = false →
        get_plugin_type_from_type_string ts
          = .error (.dbContent (invalid_type_string_msg ts)))
    ∧ (∀ ts : PyStr, pyEndswith ts (".").data = true →
        get_plugin_type_from_type_string ts = .ok ts.dropLast
          ∧ ts.dropLast ++ [('.' : Char)] = ts) := by
  refine ⟨by decide, ?_, ?_⟩
  · intro ts hne hend
    simp [get_plugin_type_from_type_string, hne, hend]
  · intro ts hend
    obtain ⟨t, rfl⟩ := pyEndswith_dot_ex hend
    have hne : t ++ [('.' : Char)] ≠ [] := by simp
    constructor
    · simp [get_plugin_type_from_type_string, hne, hend]
    · rw [List.dropLast_concat]

/-- C6, witness: `data.int.Int` (no trailing period) is rejected;
`data.int.Int.` loses exactly its trailing period. -/
theorem C6_get_plugin_type_witness :
    get_plugin_type_from_type_string ("data.int.Int").data
      = .error (.dbContent (invalid_type_string_msg ("data.int.Int").data))
    ∧ (get_plugin_type_from_type_string ("data.int.Int.").data
        = .ok (("data.int.Int.").data).dropLast
      ∧ (("data.int.Int.").data).dropLast ++ [('.' : Char)] = ("data.int.Int.").data) :=
  ⟨C6_get_plugin_type.2.1 ("data.int.Int").data (by decide) (by decide),
   C6_get_plugin_type.2.2 ("data.int.Int.").data (by decide)⟩
